import Mathlib

/-!
Verification development for the `vinolite` SQLite space-usage dashboard.

The Rust sources are shallowly embedded:

* `src/db_stats.rs` — the statistics extractor: the `Table`/`Column`/`Index`
  data model, the `Format` enumeration with its alias-resolution
  (`Format.from_str`), and the extraction procedure `query_structure`
  (modelled over an abstract database interface `Db`, since the real one
  talks to SQLite).
* `src/tui.rs` — the dashboard: `format_bytes`, `table_size`, the `Page`
  state machine, `View`, the keyboard step function `run` (embedded as
  `applyKey` / `vacuumRefresh`), and the per-frame layout arithmetic of the
  `TablesChart` and `TableDetails` pages.

Machine integers (`u64`, `usize`) are embedded as `ℕ`; `f64` values are
embedded as exact rationals `ℚ` (every division performed by the embedded
code paths at the inputs evaluated below is exact in binary floating point,
so the rational model agrees with the `f64` computation there), except where
the non-finite values NaN/±inf matter, where the small model `FVal` is used.
Rust `String`s are Lean `String`s.
-/

namespace Vinolite

/-! ## Data model (src/db_stats.rs, lines 3-33) -/

/-- `Format` from src/db_stats.rs: normalized semantic column type. -/
inductive Format where
  | Integer
  | Numeric
  | Real
  | Boolean
  | Text
  | Blob
deriving DecidableEq, Repr

/-- `Index` from src/db_stats.rs: an index name and its page-byte size. -/
structure Index where
  name : String
  size : ℕ
deriving DecidableEq, Repr

/-- `Column` from src/db_stats.rs. -/
structure Column where
  name : String
  format : Format
  length : ℕ
deriving DecidableEq, Repr

/-- `Table` from src/db_stats.rs. -/
structure Table where
  name : String
  rows : ℕ
  size : ℕ
  columns : List Column
  indexes : List Index
deriving DecidableEq, Repr

/-- The `Display` impl for `Format` (src/db_stats.rs, lines 35-46). -/
def Format.display : Format → String
  | .Integer => "integer"
  | .Numeric => "numeric"
  | .Real    => "real"
  | .Boolean => "boolean"
  | .Text    => "text"
  | .Blob    => "blob"

/-! ## Dashboard state machine (src/tui.rs, lines 29-49 and 409-475) -/

/-- `Page` from src/tui.rs. -/
inductive Page where
  | TablesChart
  | TableDetails
  | VacuumQuestion
  | VacuumProgress
deriving DecidableEq, Repr

/-- `View` from src/tui.rs. -/
structure View where
  page : Page
  tables : List Table
  selected_table : ℕ
deriving DecidableEq, Repr

/-- The key codes distinguished by the input handler in `run`
(src/tui.rs, lines 424-467); every other key or event falls into the
wildcard arms and is embedded as `other`. -/
inductive Key where
  | charQ
  | charV
  | enter
  | left
  | right
  | up
  | down
  | other
deriving DecidableEq, Repr

/-- Result of one key-processing step of `run`: the handler either returns
from the function (`quit`, the `return Ok(())` arm) or continues with a
possibly updated view. -/
inductive StepResult where
  | quit
  | cont (v : View)
deriving DecidableEq, Repr

/-- The key-event handler of `run` (src/tui.rs, lines 424-471), translated
arm by arm in source order; guarded arms (`'q'` and `Enter` inside
`VacuumQuestion`) come before their unguarded versions exactly as in the
Rust `match`. -/
def applyKey (v : View) (k : Key) : StepResult :=
  match k with
  | .charQ =>
      if v.page = .VacuumQuestion then .cont { v with page := .TablesChart }
      else .quit
  | .charV => .cont { v with page := .VacuumQuestion }
  | .enter =>
      if v.page = .VacuumQuestion then .cont { v with page := .VacuumProgress }
      else match v.page with
        | .TablesChart  => .cont { v with page := .TableDetails }
        | .TableDetails => .cont { v with page := .TablesChart }
        | _ => .cont v
  | .left =>
      .cont { v with selected_table :=
        if 0 < v.selected_table then v.selected_table - 1 else v.selected_table }
  | .right =>
      .cont { v with selected_table :=
        if v.selected_table + 1 < v.tables.length then v.selected_table + 1
        else v.selected_table }
  | .up =>
      .cont (if v.page = .TableDetails then { v with page := .TablesChart } else v)
  | .down =>
      .cont (if v.page = .TablesChart then { v with page := .TableDetails } else v)
  | .other => .cont v

/-- Repeated key processing: the inner loop of `run` applied to a list of
key events (in states where the vacuum branch is not taken). -/
def runKeys (v : View) : List Key → StepResult
  | [] => .cont v
  | k :: ks =>
      match applyKey v k with
      | .quit => .quit
      | .cont v' => runKeys v' ks

/-- The initial view constructed by `run` (src/tui.rs, lines 52-56): page
`TablesChart`, the freshly extracted snapshot in extraction order, cursor 0. -/
def initView (snapshot : List Table) : View :=
  { page := .TablesChart, tables := snapshot, selected_table := 0 }

/-- The automatic `VacuumProgress` step of `run` (src/tui.rs, lines
412-418): the page returns to `TablesChart` and `tables` is replaced
wholesale by the freshly extracted snapshot; `selected_table` is not
touched. `newTables` stands for the result of the re-extraction. -/
def vacuumRefresh (v : View) (newTables : List Table) : View :=
  { page := .TablesChart, tables := newTables, selected_table := v.selected_table }

/-- The states reachable by the event loop of `run` from the initial view:
key events are processed only outside `VacuumProgress` (the vacuum branch of
the inner loop precedes event polling), and in `VacuumProgress` the
automatic refresh runs with an arbitrary re-extraction result. -/
inductive Reachable (init : List Table) : View → Prop where
  | start : Reachable init (initView init)
  | key {v v' : View} (k : Key) :
      Reachable init v → v.page ≠ .VacuumProgress →
      applyKey v k = .cont v' → Reachable init v'
  | vacuum {v : View} (newTables : List Table) :
      Reachable init v → v.page = .VacuumProgress →
      Reachable init (vacuumRefresh v newTables)

/-- Reachability under the extra assumption that every vacuum re-extraction
returns more tables than the current cursor position (in particular,
whenever the table count never shrinks). -/
inductive ReachableNonShrink (init : List Table) : View → Prop where
  | start : ReachableNonShrink init (initView init)
  | key {v v' : View} (k : Key) :
      ReachableNonShrink init v → v.page ≠ .VacuumProgress →
      applyKey v k = .cont v' → ReachableNonShrink init v'
  | vacuum {v : View} (newTables : List Table) :
      ReachableNonShrink init v → v.page = .VacuumProgress →
      v.selected_table < newTables.length →
      ReachableNonShrink init (vacuumRefresh v newTables)

/-! ## Format resolution (src/db_stats.rs, lines 48-74) -/

/-- Rust `u8::to_ascii_lowercase` on one character: `'A'..'Z'` map to
lowercase, everything else is unchanged. -/
def asciiLowerChar (c : Char) : Char :=
  if 'A' ≤ c ∧ c ≤ 'Z' then Char.ofNat (c.toNat + 32) else c

/-- Rust `str::to_ascii_lowercase`. -/
def toAsciiLowercase (s : String) : String :=
  ⟨s.toList.map asciiLowerChar⟩

/-- Rust `str::starts_with`: `strStartsWith s p` holds when `p` begins `s`. -/
def strStartsWith (s p : String) : Bool :=
  p.toList.isPrefixOf s.toList

/-- The match test of the alias loop (src/db_stats.rs, line 66):
`definition.starts_with(format) || format.starts_with(definition)`. -/
def aliasMatches (format definition : String) : Bool :=
  strStartsWith definition format || strStartsWith format definition

/-- The `formats` alias table (src/db_stats.rs, lines 55-62), in declared
order. -/
def formats : List (Format × List String) :=
  [ (.Integer, ["integer", "tinyint", "smallint", "mediumint", "bigint",
                "unsigned big int", "int2", "int8"]),
    (.Numeric, ["numeric", "date"]),
    (.Real,    ["real", "float", "double", "decimal"]),
    (.Boolean, ["boolean"]),
    (.Text,    ["text", "char", "varchar", "varying character", "nchar",
                "native character", "nvarchar", "clob", "timestamp"]),
    (.Blob,    ["blob"]) ]

/-- The nested alias loop (src/db_stats.rs, lines 64-70): first declared
variant whose alias list has a matching definition wins. -/
def findFormat (format : String) : List (Format × List String) → Option Format
  | [] => none
  | (fmt, definitions) :: rest =>
      if definitions.any (fun d => aliasMatches format d) then some fmt
      else findFormat format rest

/-- `Format::from_str` (src/db_stats.rs, lines 51-73): lowercase the input,
scan the alias table, and fail (`anyhow::bail!`, the spec's
`UnsupportedColumnType`) when nothing matches. -/
def Format.from_str (s : String) : Except String Format :=
  let format := toAsciiLowercase s
  match findFormat format formats with
  | some fmt => .ok fmt
  | none => .error ("Invalid column data type: " ++ format)

/-! ## Byte formatting (src/tui.rs, lines 12-23) -/

/-- Decimal digits of `n`, most significant first, by fuel recursion. -/
def natDigitsAux : ℕ → ℕ → List Char
  | 0, _ => []
  | fuel + 1, n =>
      if n = 0 then []
      else natDigitsAux fuel (n / 10) ++ [Char.ofNat (48 + n % 10)]

/-- Decimal rendering of a natural number. -/
def natToStr (n : ℕ) : String :=
  if n = 0 then "0" else ⟨natDigitsAux (n + 1) n⟩

/-- Two-digit zero-padded rendering, for the fractional part of `{:.2}`. -/
def pad2 (n : ℕ) : String :=
  if n < 10 then "0" ++ natToStr n else natToStr n

/-- Round to the nearest integer, ties to even — the rounding Rust's
`{:.prec}` float formatting applies to the exact value. -/
def roundHalfEven (q : ℚ) : ℤ :=
  if Int.fract q < 1 / 2 then ⌊q⌋
  else if 1 / 2 < Int.fract q then ⌊q⌋ + 1
  else if Even ⌊q⌋ then ⌊q⌋ else ⌊q⌋ + 1

/-- Rust `format!("{value:.2}")` for the nonnegative values produced here:
the exact value rounded to two decimal places, ties to even. -/
def decimal2 (q : ℚ) : String :=
  let n := (roundHalfEven (q * 100)).toNat
  natToStr (n / 100) ++ "." ++ pad2 (n % 100)

/-- The suffix loop of `format_bytes` (src/tui.rs, lines 13-20): return at
the first unit where the running value is below 1000, dividing by 1024
otherwise; after `B`, `KB`, `MB`, `GB` are exhausted the value falls
through to `TB` (line 22). -/
def format_bytesAux : List String → ℚ → String
  | [], bytes => decimal2 bytes ++ " TB"
  | suffix :: rest, bytes =>
      if bytes < 1000 then decimal2 bytes ++ " " ++ suffix
      else format_bytesAux rest (bytes / 1024)

/-- `format_bytes` (src/tui.rs, lines 12-23). Division of an `f64` by 1024
is exact, so the rational model coincides with the floating-point loop for
every input exactly representable as an `f64`. -/
def format_bytes (bytes : ℚ) : String :=
  format_bytesAux ["B", "KB", "MB", "GB"] bytes

/-! ## A value model for `f64` where NaN and infinities matter

Finite values are exact rationals; the operations below implement IEEE-754
division and multiplication on the sign/NaN structure (negative zero is not
modelled; no negative zero arises in the embedded code paths). -/

/-- An `f64` value: finite (exact rational), NaN, or a signed infinity. -/
inductive FVal where
  | fin (q : ℚ)
  | nan
  | inf
  | ninf
deriving DecidableEq, Repr

/-- IEEE-754 division on `FVal`: `0.0 / 0.0` is NaN, `x / 0.0` is a signed
infinity for `x ≠ 0`, and NaN propagates. -/
def FVal.div : FVal → FVal → FVal
  | .fin a, .fin b =>
      if b = 0 then (if a = 0 then .nan else if 0 < a then .inf else .ninf)
      else .fin (a / b)
  | .nan, _ => .nan
  | _, .nan => .nan
  | .inf, .inf => .nan
  | .inf, .ninf => .nan
  | .ninf, .inf => .nan
  | .ninf, .ninf => .nan
  | .inf, .fin b => if 0 ≤ b then .inf else .ninf
  | .ninf, .fin b => if 0 ≤ b then .ninf else .inf
  | .fin _, .inf => .fin 0
  | .fin _, .ninf => .fin 0

/-- IEEE-754 multiplication of an `FVal` by a finite constant. -/
def FVal.mulConst (x : FVal) (c : ℚ) : FVal :=
  match x with
  | .fin a => .fin (a * c)
  | .nan => .nan
  | .inf => if 0 < c then .inf else if c < 0 then .ninf else .nan
  | .ninf => if 0 < c then .ninf else if c < 0 then .inf else .nan

/-- Rust `format!("{value:.2}")` on an `f64` value: `"NaN"`, `"inf"` and
`"-inf"` for the non-finite values, `decimal2` otherwise. -/
def FVal.format2 : FVal → String
  | .fin q => decimal2 q
  | .nan => "NaN"
  | .inf => "inf"
  | .ninf => "-inf"

/-! ## TablesChart page arithmetic (src/tui.rs, lines 25-27, 58, 86-131) -/

/-- `table_size` (src/tui.rs, lines 25-27): the table's own pages plus the
sum of its index sizes, cast to `f64`. -/
def table_size (t : Table) : ℚ :=
  ((t.size + (t.indexes.map Index.size).sum : ℕ) : ℚ)

/-- `total_tables_size` (src/tui.rs, line 58): the sum of `table_size` over
every table of the snapshot. -/
def total_tables_size (tables : List Table) : ℚ :=
  (tables.map table_size).sum

/-- The `real_table_fraction` linear percentage fractions of the bars drawn
by the TablesChart loop (src/tui.rs, lines 86-107 and 127): one per
displayed table (the loop stops after `bars_per_page` slots or at the end of
the snapshot, whichever comes first), each `table_size / total_tables_size`
— the denominator summing over the WHOLE snapshot, not just the displayed
page. -/
def chartFractions (tables : List Table) (barsPerPage : ℕ) : List ℚ :=
  (tables.take barsPerPage).map (fun t => table_size t / total_tables_size tables)

/-- Modelled from the spec (§4.3, "`total_f` is the sum of `f` over all
displayed tables"): the same percentage fractions but with the denominator
restricted to the displayed tables, for comparison with `chartFractions`. -/
def specChartFractions (tables : List Table) (barsPerPage : ℕ) : List ℚ :=
  (tables.take barsPerPage).map
    (fun t => table_size t / total_tables_size (tables.take barsPerPage))

/-! ## Snapshot ordering (spec §3/§8; src/tui.rs, lines 51-58) -/

/-- The combined table+index byte total, the descending-sort key named by
the spec (§3: "sorts descending by table+index total size"). -/
def sizeWithIndexes (t : Table) : ℕ :=
  t.size + (t.indexes.map Index.size).sum

/-- Insert a table into a list sorted descending by `sizeWithIndexes`. -/
def insertDescBySize (t : Table) : List Table → List Table
  | [] => [t]
  | u :: us =>
      if sizeWithIndexes u < sizeWithIndexes t then t :: u :: us
      else u :: insertDescBySize t us

/-- Modelled from the spec (§3/§8): the stable descending sort by combined
table+index size that the spec says the dashboard applies before first
display. No such sort exists in the source; this definition follows the
spec's words, to be compared with `initView`. -/
def specSortDescBySize (tables : List Table) : List Table :=
  tables.foldr insertDescBySize []

/-! ## TableDetails page arithmetic (src/tui.rs, lines 161-203) -/

/-- `total_columns_size` (src/tui.rs, lines 171-173). -/
def totalColumnsSize (t : Table) : ℚ :=
  (t.columns.map (fun c => (c.length : ℚ))).sum

/-- The `{:.2}%` fraction label of one column row (src/tui.rs, line 182):
`column.length as f64 / total_columns_size * 100.0`, computed in the `f64`
value model because the division is unguarded when the total is zero. -/
def columnFractionLabel (total : ℚ) (c : Column) : String :=
  (FVal.mulConst (FVal.div (.fin (c.length : ℚ)) (.fin total)) 100).format2 ++ "%"

/-- The fraction labels of every column row of the TableDetails page. -/
def columnFractionLabels (t : Table) : List String :=
  t.columns.map (columnFractionLabel (totalColumnsSize t))

/-- The per-row string lengths collected by the columns sub-table
(src/tui.rs, line 184): name, type, size, fraction. -/
def columnRowSizes (total : ℚ) (c : Column) : ℕ × ℕ × ℕ × ℕ :=
  (c.name.length, (Format.display c.format).length,
   (format_bytes (c.length : ℚ)).length, (columnFractionLabel total c).length)

/-- The columns sub-table width fold (src/tui.rs, lines 198-203), translated
slot by slot; note the source's last slot reads `acc.3.max(sizes.2)` — the
fraction column's accumulator is maxed with the SIZE string length. -/
def columnsWidths (t : Table) : ℕ × ℕ × ℕ × ℕ :=
  (t.columns.map (columnRowSizes (totalColumnsSize t))).foldl
    (fun acc s => (max acc.1 s.1, max acc.2.1 s.2.1, max acc.2.2.1 s.2.2.1,
                   max acc.2.2.2 s.2.2.1))
    (4, 4, 9, 8)

/-! ## The extraction procedure (src/db_stats.rs, lines 76-166)

`query_structure` talks to SQLite; its queries are embedded as an abstract
interface `Db` whose fields return either a value or a propagated error
(any failed query or row missing an expected field is an `.error` of the
corresponding field). The `?`-propagation of the Rust code is translated as
explicit matches. -/

/-- The database interface consumed by `query_structure`: each field stands
for one family of queries of src/db_stats.rs (lines 77-93, 98-99, 101-111,
116-121, 130-133, 138-148). -/
structure Db where
  tablesRaw : Except String (List (String × ℕ))
  rowCount : String → Except String ℕ
  tableInfo : String → Except String (List (String × String))
  columnLength : String → String → Except String ℕ
  indexList : String → Except String (List String)
  indexSize : String → Except String ℕ

/-- The collect-into-`Result` pattern of the extraction loops: map a
fallible function over a list, propagating the first error. -/
def mapE {α β : Type} (f : α → Except String β) : List α → Except String (List β)
  | [] => .ok []
  | x :: xs =>
      match f x with
      | .error e => .error e
      | .ok y =>
          match mapE f xs with
          | .error e => .error e
          | .ok ys => .ok (y :: ys)

/-- The body of the per-table loop of `query_structure`
(src/db_stats.rs, lines 97-163): row count, column enumeration with format
resolution, per-column lengths, index enumeration, per-index sizes; any
failure aborts. -/
def tableExtract (db : Db) (tname : String) (size : ℕ) : Except String Table :=
  match db.rowCount tname with
  | .error e => .error e
  | .ok rows =>
    match db.tableInfo tname with
    | .error e => .error e
    | .ok info =>
      match mapE (fun p : String × String =>
          match Format.from_str p.2 with
          | .error e => .error e
          | .ok f => .ok (p.1, f)) info with
      | .error e => .error e
      | .ok columnsRaw =>
        match mapE (fun p : String × Format =>
            match db.columnLength tname p.1 with
            | .error e => .error e
            | .ok len => .ok { name := p.1, format := p.2, length := len : Column })
            columnsRaw with
        | .error e => .error e
        | .ok columns =>
          match db.indexList tname with
          | .error e => .error e
          | .ok idxNames =>
            match mapE (fun i =>
                match db.indexSize i with
                | .error e => .error e
                | .ok s => .ok { name := i, size := s : Index }) idxNames with
            | .error e => .error e
            | .ok indexes =>
              .ok { name := tname, rows := rows, size := size,
                    columns := columns, indexes := indexes }

/-- `query_structure` (src/db_stats.rs, lines 76-166). -/
def query_structure (db : Db) : Except String (List Table) :=
  match db.tablesRaw with
  | .error e => .error e
  | .ok raw => mapE (fun p : String × ℕ => tableExtract db p.1 p.2) raw

/-! ## Remaining definitions: decidability, the §4.2 transition table, and
concrete sample data used by the evaluations below -/

instance exceptDecEq {ε α : Type} [DecidableEq ε] [DecidableEq α] : DecidableEq (Except ε α)
  | .error e, .error f =>
      if h : e = f then .isTrue (by rw [h])
      else .isFalse (by intro hc; cases hc; exact h rfl)
  | .error _, .ok _ => .isFalse (by intro hc; cases hc)
  | .ok _, .error _ => .isFalse (by intro hc; cases hc)
  | .ok a, .ok b =>
      if h : a = b then .isTrue (by rw [h])
      else .isFalse (by intro hc; cases hc; exact h rfl)

/-- The keyboard transition table of spec §4.2, as the claim reads it: the
(page, key) pairs for which the table lists a View-changing transition
(select keys in `TablesChart`/`TableDetails`, down/up/confirm between the
two data pages, "v" from the two data pages, "q" and confirm inside
`VacuumQuestion`). -/
def listedTransition : Page → Key → Bool
  | .TablesChart, .left => true
  | .TablesChart, .right => true
  | .TableDetails, .left => true
  | .TableDetails, .right => true
  | .TablesChart, .down => true
  | .TablesChart, .enter => true
  | .TableDetails, .up => true
  | .TableDetails, .enter => true
  | .TablesChart, .charV => true
  | .TableDetails, .charV => true
  | .VacuumQuestion, .charQ => true
  | .VacuumQuestion, .enter => true
  | _, _ => false

/-- The transition table the code actually implements: §4.2 plus the select
keys inside `VacuumQuestion` (the `Left`/`Right` arms of `run` carry no page
guard). -/
def listedTransitionFull : Page → Key → Bool
  | .VacuumQuestion, .left => true
  | .VacuumQuestion, .right => true
  | p, k => listedTransition p k

/-- A minimal sample table. -/
def exT : Table := { name := "t", rows := 0, size := 0, columns := [], indexes := [] }

/-- The state reached from `initView [exT, exT]` by select-next, "v",
confirm, and a vacuum refresh that returns a single table. -/
def exBadView : View := { page := .TablesChart, tables := [exT], selected_table := 1 }

/-- Table A of the spec §8 example: 10 rows, 4096 bytes. -/
def exA : Table := { name := "A", rows := 10, size := 4096, columns := [], indexes := [] }

/-- Table B of the spec §8 example: 0 rows, 0 bytes. -/
def exB : Table := { name := "B", rows := 0, size := 0, columns := [], indexes := [] }

/-- Table C of the spec §8 example: 1,000,000 rows, 50 MB. -/
def exC : Table := { name := "C", rows := 1000000, size := 52428800, columns := [], indexes := [] }

/-- A one-byte table for the chart-percentage evaluations. -/
def exU : Table := { name := "u", rows := 0, size := 1, columns := [], indexes := [] }

/-- A column whose stored values are all null: total length 0. -/
def exNullColumn : Column := { name := "x", format := .Integer, length := 0 }

/-- A table whose column group total size is exactly 0 (one all-null
column), as for table B of §8. -/
def exTableAllNull : Table :=
  { name := "B", rows := 0, size := 0, columns := [exNullColumn], indexes := [] }

/-- A column whose size string ("1000.00 TB", 10 characters) is longer than
its fraction string ("100.00%", 7 characters). -/
def exWideColumn : Column := { name := "c", format := .Integer, length := 1000 * 1024 ^ 4 }

/-- A table holding only `exWideColumn`. -/
def exWideTable : Table :=
  { name := "w", rows := 0, size := 0, columns := [exWideColumn], indexes := [] }

/-- A concrete database interface on which every query succeeds. -/
def exDb : Db :=
  { tablesRaw := .ok [("users", 4096)],
    rowCount := fun _ => .ok 2,
    tableInfo := fun _ => .ok [("id", "INTEGER")],
    columnLength := fun _ _ => .ok 16,
    indexList := fun _ => .ok [],
    indexSize := fun _ => .ok 0 }

/-- The snapshot `query_structure` extracts from `exDb`. -/
def exExtracted : List Table :=
  [{ name := "users", rows := 2, size := 4096,
     columns := [{ name := "id", format := .Integer, length := 16 }],
     indexes := [] }]

/-! ## Shared helper lemmas -/

theorem findFormat_eq_none (s : String) (tbl : List (Format × List String))
    (h : ∀ p ∈ tbl, ∀ a ∈ p.2, aliasMatches s a = false) :
    findFormat s tbl = none := by
  induction tbl with
  | nil => rfl
  | cons p rest ih =>
    obtain ⟨fmt, defs⟩ := p
    have hfalse : (defs.any (fun d => aliasMatches s d)) = false := by
      simp only [List.any_eq_false]
      intro a ha
      simp [h (fmt, defs) (List.mem_cons_self _ _) a ha]
    rw [findFormat, hfalse]
    simp only [Bool.false_eq_true, if_false]
    exact ih (fun q hq a ha => h q (List.mem_cons_of_mem _ hq) a ha)

theorem list_sum_map_div {α : Type} (f : α → ℚ) (l : List α) (c : ℚ) :
    (l.map (fun x => f x / c)).sum = (l.map f).sum / c := by
  induction l with
  | nil => simp
  | cons x xs ih => simp [ih, add_div]

theorem mapE_ok_length {α β : Type} (f : α → Except String β) (l : List α) (l' : List β)
    (h : mapE f l = .ok l') : l'.length = l.length := by
  induction l generalizing l' with
  | nil => rw [mapE] at h; injection h with h'; subst h'; rfl
  | cons x xs ih =>
    rw [mapE] at h
    cases hf : f x with
    | error e => rw [hf] at h; cases h
    | ok y =>
      rw [hf] at h
      cases hm : mapE f xs with
      | error e => rw [hm] at h; cases h
      | ok ys => rw [hm] at h; injection h with h'; subst h'; simp [ih ys hm]

theorem mapE_ok_mem {α β : Type} (f : α → Except String β) (l : List α) (l' : List β)
    (h : mapE f l = .ok l') : ∀ y ∈ l', ∃ x ∈ l, f x = .ok y := by
  induction l generalizing l' with
  | nil => rw [mapE] at h; injection h with h'; subst h'; intro y hy; cases hy
  | cons x xs ih =>
    rw [mapE] at h
    cases hf : f x with
    | error e => rw [hf] at h; cases h
    | ok y =>
      rw [hf] at h
      cases hm : mapE f xs with
      | error e => rw [hm] at h; cases h
      | ok ys =>
        rw [hm] at h; injection h with h'; subst h'
        intro z hz
        rcases List.mem_cons.mp hz with rfl | hz'
        · exact ⟨x, List.mem_cons_self _ _, hf⟩
        · obtain ⟨w, hw, hfw⟩ := ih ys hm z hz'
          exact ⟨w, List.mem_cons_of_mem _ hw, hfw⟩

theorem mapE_error_of_mem {α β : Type} (f : α → Except String β) (l : List α) (x : α)
    (hx : x ∈ l) (hfx : ∃ e, f x = .error e) : ∃ e, mapE f l = .error e := by
  induction l with
  | nil => cases hx
  | cons y ys ih =>
    cases hf : f y with
    | error e => exact ⟨e, by rw [mapE, hf]⟩
    | ok b =>
      rcases List.mem_cons.mp hx with rfl | hx'
      · obtain ⟨e0, he0⟩ := hfx
        rw [hf] at he0; cases he0
      · obtain ⟨e1, he1⟩ := ih hx'
        exact ⟨e1, by rw [mapE, hf, he1]⟩

theorem tableExtract_ok_complete (db : Db) (n : String) (s : ℕ) (t : Table)
    (h : tableExtract db n s = .ok t) :
    t.name = n ∧ t.size = s ∧
    ∃ info, db.tableInfo n = .ok info ∧ t.columns.length = info.length := by
  rw [tableExtract] at h
  split at h
  · exact Except.noConfusion h
  rename_i rows hrc
  split at h
  · exact Except.noConfusion h
  rename_i info hti
  split at h
  · exact Except.noConfusion h
  rename_i columnsRaw hm1
  split at h
  · exact Except.noConfusion h
  rename_i columns hm2
  split at h
  · exact Except.noConfusion h
  rename_i idxNames hil
  split at h
  · exact Except.noConfusion h
  rename_i indexes hm3
  injection h with h'
  subst h'
  refine ⟨rfl, rfl, info, hti, ?_⟩
  rw [mapE_ok_length _ _ _ hm2, mapE_ok_length _ _ _ hm1]

/-! ## Claim C1 -/

/-- Claim C1, counterexample: the claim asserts that every reachable View
with non-empty tables satisfies `selected_table < tables.len()` because the
vacuum refresh re-clamps the cursor. The state `exBadView` — reached by
select-next, "v", confirm, and a vacuum refresh whose re-extraction returns
one table — is reachable, has non-empty tables, and violates the bound: the
refresh performs no re-clamping. -/
theorem selected_bound_counterexample :
    Reachable [exT, exT] exBadView ∧ exBadView.tables ≠ [] ∧
      ¬(exBadView.selected_table < exBadView.tables.length) := by
  refine ⟨?_, by decide, by decide⟩
  have h1 : Reachable [exT, exT]
      { page := .TablesChart, tables := [exT, exT], selected_table := 1 } :=
    .key .right .start (by decide) (by decide)
  have h2 : Reachable [exT, exT]
      { page := .VacuumQuestion, tables := [exT, exT], selected_table := 1 } :=
    .key .charV h1 (by decide) (by decide)
  have h3 : Reachable [exT, exT]
      { page := .VacuumProgress, tables := [exT, exT], selected_table := 1 } :=
    .key .enter h2 (by decide) (by decide)
  exact .vacuum [exT] h3 rfl

/-- Claim C1, amended: the vacuum step leaves `selected_table` unchanged and
does NOT re-clamp it; the invariant `selected_table < tables.len()` (tables
non-empty) holds for every reachable state provided each vacuum
re-extraction returns more tables than the current cursor — in particular
whenever the table count never shrinks. All keyboard steps preserve the
bound unconditionally. -/
theorem selected_bound_nonshrink (init : List Table) (v : View)
    (h : ReachableNonShrink init v) (hne : v.tables ≠ []) :
    v.selected_table < v.tables.length := by
  have aux : v.selected_table < v.tables.length ∨
      (v.tables = [] ∧ v.selected_table = 0) := by
    clear hne
    induction h with
    | start =>
      cases init with
      | nil => exact Or.inr ⟨rfl, rfl⟩
      | cons t ts => exact Or.inl (by simp [initView])
    | key k _ hpage hstep ih =>
      cases k with
      | charQ =>
        rw [applyKey] at hstep
        split at hstep
        · injection hstep with h; subst h; simpa using ih
        · cases hstep
      | charV =>
        rw [applyKey] at hstep
        injection hstep with h; subst h; simpa using ih
      | enter =>
        rw [applyKey] at hstep
        split at hstep
        · injection hstep with h; subst h; simpa using ih
        · split at hstep <;> (injection hstep with h; subst h) <;> simpa using ih
      | left =>
        rw [applyKey] at hstep
        injection hstep with h; subst h
        rcases ih with h1 | ⟨h1, h2⟩
        · left; dsimp only; split <;> omega
        · right; exact ⟨h1, by dsimp only; simp [h2]⟩
      | right =>
        rw [applyKey] at hstep
        injection hstep with h; subst h
        rcases ih with h1 | ⟨h1, h2⟩
        · left; dsimp only; split <;> omega
        · right; refine ⟨h1, ?_⟩; dsimp only; simp [h1, h2]
      | up =>
        rw [applyKey] at hstep
        injection hstep with h; subst h
        split <;> simpa using ih
      | down =>
        rw [applyKey] at hstep
        injection hstep with h; subst h
        split <;> simpa using ih
      | other =>
        rw [applyKey] at hstep
        injection hstep with h; subst h
        exact ih
    | vacuum newTables _ hpage hlen ih =>
      exact Or.inl hlen
  rcases aux with h1 | ⟨h1, _⟩
  · exact h1
  · exact absurd h1 hne

/-- Witness for `selected_bound_nonshrink` at the initial view over one
table. -/
theorem selected_bound_nonshrink_witness :
    (initView [exT]).tables ≠ [] ∧
      (initView [exT]).selected_table < (initView [exT]).tables.length :=
  ⟨by decide, selected_bound_nonshrink [exT] _ .start (by decide)⟩

/-! ## Claim C2 -/

/-- Claim C2, counterexample: the claim asserts a key event changes the View
only along a transition listed in the §4.2 table, and that select keys are
accepted only in `TablesChart`/`TableDetails`. Pressing select-next inside
`VacuumQuestion` (a key-processing state) changes the View although the
table lists no such transition. -/
theorem keyTable_counterexample :
    applyKey { page := .VacuumQuestion, tables := [exT, exT], selected_table := 0 } .right
      = .cont { page := .VacuumQuestion, tables := [exT, exT], selected_table := 1 } ∧
    ({ page := .VacuumQuestion, tables := [exT, exT], selected_table := 1 } : View)
      ≠ { page := .VacuumQuestion, tables := [exT, exT], selected_table := 0 } ∧
    listedTransition .VacuumQuestion .right = false ∧
    (Page.VacuumQuestion ≠ .VacuumProgress) := by decide

/-- Claim C2, amended: in key-processing states (page ≠ `VacuumProgress`)
a key event changes the View only along the §4.2 table EXTENDED with
select-next/select-previous inside `VacuumQuestion`; "v" moves to
`VacuumQuestion` from `TablesChart` and `TableDetails` and is a no-op
self-loop in `VacuumQuestion`; "q" in any key-processing state other than
`VacuumQuestion` terminates the session. -/
theorem keyTable_amended :
    (∀ (v v' : View) (k : Key), v.page ≠ .VacuumProgress →
        applyKey v k = .cont v' → v' ≠ v → listedTransitionFull v.page k = true) ∧
    (∀ v : View, (v.page = .TablesChart ∨ v.page = .TableDetails) →
        applyKey v .charV = .cont { v with page := .VacuumQuestion }) ∧
    (∀ v : View, v.page = .VacuumQuestion → applyKey v .charV = .cont v) ∧
    (∀ v : View, v.page ≠ .VacuumQuestion → applyKey v .charQ = .quit) := by
  refine ⟨?_, ?_, ?_, ?_⟩
  · intro v v' k h1 h2 h3
    cases v with
    | mk p ts sel =>
      cases k <;> cases p <;>
        simp_all [applyKey, listedTransitionFull, listedTransition]
  · intro v h; rcases h with h | h <;> cases v <;> simp_all [applyKey]
  · intro v h; cases v <;> simp_all [applyKey]
  · intro v h; cases v with
    | mk p ts sel => cases p <;> simp_all [applyKey]

/-- Witness for `keyTable_amended` at concrete views. -/
theorem keyTable_amended_witness :
    (Page.TablesChart ≠ .VacuumProgress) ∧
    listedTransitionFull .TablesChart .down = true ∧
    applyKey { page := .TablesChart, tables := [exT], selected_table := 0 } .charQ = .quit := by
  refine ⟨by decide, ?_, ?_⟩
  · exact keyTable_amended.1
      { page := .TablesChart, tables := [exT], selected_table := 0 }
      { page := .TableDetails, tables := [exT], selected_table := 0 }
      .down (by decide) (by decide) (by decide)
  · exact keyTable_amended.2.2.2
      { page := .TablesChart, tables := [exT], selected_table := 0 } (by decide)

/-! ## Claim C3 -/

/-- Claim C3, counterexample: the claim asserts the snapshot handed to the
View is sorted descending by combined table+index size before first display.
For the §8 snapshot in extraction order [A, B, C], the View keeps [A, B, C]
while the descending sort yields [C, A, B]. -/
theorem sorted_snapshot_counterexample :
    (initView [exA, exB, exC]).tables ≠ specSortDescBySize [exA, exB, exC] ∧
    specSortDescBySize [exA, exB, exC] = [exC, exA, exB] := by decide

/-- Claim C3, amended: no sort is performed anywhere — the snapshot handed
to the View keeps the extraction order unchanged; under the spec's
descending sort by combined size the §8 example would indeed order as
C, A, B, but the code displays the extraction order. -/
theorem snapshot_order_preserved :
    (∀ snapshot : List Table, (initView snapshot).tables = snapshot) ∧
    specSortDescBySize [exA, exB, exC] = [exC, exA, exB] :=
  ⟨fun _ => rfl, by decide⟩

/-! ## Claim C4 -/

/-- Claim C4: the code_bug evaluation. For `exWideTable` (one column, size
string "1000.00 TB" of 10 characters, fraction string "100.00%" of 7
characters) the width fold of src/tui.rs:198-203 yields fraction-column
width 10 — driven by the SIZE string because line 202 reads
`acc.3.max(sizes.2)` — while the documented per-field rule gives
max 8 (minimum) vs 7 (longest fraction string) = 8. -/
theorem columns_widths_eval :
    columnsWidths exWideTable = (4, 7, 10, 10) ∧
    ((exWideTable.columns.map
        (fun c => (columnFractionLabel (totalColumnsSize exWideTable) c).length)).foldl
      max 8) = 8 := by
  have htot : totalColumnsSize exWideTable = ((1000 * 1024 ^ 4 : ℕ) : ℚ) := by
    simp [totalColumnsSize, exWideTable, exWideColumn]
  have hsize : format_bytes ((1000 * 1024 ^ 4 : ℕ) : ℚ) = "1000.00 TB" := by
    push_cast
    norm_num [format_bytes, format_bytesAux, decimal2, roundHalfEven, Int.fract]
    decide
  have hfrac : columnFractionLabel ((1000 * 1024 ^ 4 : ℕ) : ℚ) exWideColumn = "100.00%" := by
    rw [columnFractionLabel]
    have hne : ((1000 * 1024 ^ 4 : ℕ) : ℚ) ≠ 0 := by push_cast; norm_num
    rw [show (exWideColumn.length : ℚ) = ((1000 * 1024 ^ 4 : ℕ) : ℚ) from rfl]
    rw [FVal.div, if_neg hne, div_self hne]
    rw [FVal.mulConst, FVal.format2]
    norm_num [decimal2, roundHalfEven, Int.fract]
    decide
  have hlen : (exWideColumn.length : ℚ) = ((1000 * 1024 ^ 4 : ℕ) : ℚ) := rfl
  constructor
  · rw [columnsWidths, htot]
    simp only [exWideTable, List.map_cons, List.map_nil, columnRowSizes]
    rw [hlen, hsize, hfrac]
    decide
  · rw [htot]
    simp only [exWideTable, List.map_cons, List.map_nil]
    rw [hfrac]
    decide

/-! ## Claim C5 -/

/-- Claim C5, counterexample: the claim asserts the percentage labels use
`total_f` summed over the DISPLAYED tables, so that the displayed labels sum
to 100%. With two one-byte tables and a single bar slot the code's labels
are [1/2] (denominator over the whole snapshot), differing from the spec's
formula and summing to 1/2, not 1. -/
theorem chart_percentages_counterexample :
    chartFractions [exU, exU] 1 ≠ specChartFractions [exU, exU] 1 ∧
    (chartFractions [exU, exU] 1).sum ≠ 1 := by
  constructor
  · simp [chartFractions, specChartFractions, table_size, total_tables_size, exU]
  · simp [chartFractions, table_size, total_tables_size, exU]

/-- Claim C5, amended: the labels are `f / total_f × 100` with `total_f` the
sum of combined footprints over ALL tables of the snapshot (src/tui.rs:58),
so the displayed labels sum to 100% (exactly, before rounding) whenever
every table fits on the page. -/
theorem chart_percentages_sum (tables : List Table) (barsPerPage : ℕ)
    (h1 : total_tables_size tables ≠ 0) (h2 : tables.length ≤ barsPerPage) :
    (chartFractions tables barsPerPage).sum = 1 := by
  rw [chartFractions, List.take_of_length_le h2, list_sum_map_div]
  rw [← total_tables_size, div_self h1]

/-- Witness for `chart_percentages_sum` with two tables and two slots. -/
theorem chart_percentages_sum_witness :
    total_tables_size [exU, exU] ≠ 0 ∧ ([exU, exU] : List Table).length ≤ 2 ∧
    (chartFractions [exU, exU] 2).sum = 1 := by
  refine ⟨?_, by decide, ?_⟩
  · simp [total_tables_size, table_size, exU]
  · exact chart_percentages_sum [exU, exU] 2
      (by simp [total_tables_size, table_size, exU]) (by decide)

/-! ## Claim C6 -/

/-- Claim C6: the code_bug evaluation. For a table with one all-null column
the column group total is exactly 0 and the rendered fraction label of the
row is "NaN%" — the unguarded `0.0 / 0.0 * 100.0` of src/tui.rs:182 — not
the explicitly defined numeric output the claim asserts. -/
theorem nan_fraction_eval :
    totalColumnsSize exTableAllNull = 0 ∧
    columnFractionLabels exTableAllNull = ["NaN%"] := by
  constructor
  · simp [totalColumnsSize, exTableAllNull, exNullColumn]
  · simp [columnFractionLabels, columnFractionLabel, totalColumnsSize,
          exTableAllNull, exNullColumn, FVal.div, FVal.mulConst, FVal.format2]

/-! ## Claim C7 -/

/-- Claim C7: for every declared type string in the alias tables and every
case variation of it (any string whose ASCII lowercase form is the alias),
`Format::from_str` returns the variant owning the alias, the first-declared
variant winning under the mutual-prefix matching rule; and every string
matching no alias fails with the unsupported-column-type error rather than
falling back to a default. -/
theorem from_str_alias_resolution :
    (∀ (s al : String) (fmt : Format) (aliases : List String),
      (fmt, aliases) ∈ formats → al ∈ aliases → toAsciiLowercase s = al →
      Format.from_str s = .ok fmt) ∧
    (∀ s : String,
      (∀ p ∈ formats, ∀ a ∈ p.2, aliasMatches (toAsciiLowercase s) a = false) →
      ∃ e, Format.from_str s = .error e) := by
  constructor
  · intro s al fmt aliases hmem hal hlow
    have key : ∀ p ∈ formats, ∀ a ∈ p.2, findFormat a formats = some p.1 := by decide
    have hfind : findFormat al formats = some fmt := key (fmt, aliases) hmem al hal
    simp only [Format.from_str]
    rw [hlow, hfind]
  · intro s h
    have hfind : findFormat (toAsciiLowercase s) formats = none := findFormat_eq_none _ _ h
    refine ⟨"Invalid column data type: " ++ toAsciiLowercase s, ?_⟩
    simp only [Format.from_str]
    rw [hfind]

/-- Witness for `from_str_alias_resolution`: an uppercase alias, a
mixed-case multi-word alias, and the unrecognized string "geometry". -/
theorem from_str_alias_resolution_witness :
    Format.from_str "INTEGER" = .ok .Integer ∧
    Format.from_str "Varying Character" = .ok .Text ∧
    ∃ e, Format.from_str "geometry" = .error e := by
  refine ⟨?_, ?_, ?_⟩
  · exact from_str_alias_resolution.1 "INTEGER" "integer" .Integer
      ["integer", "tinyint", "smallint", "mediumint", "bigint",
       "unsigned big int", "int2", "int8"] (by decide) (by decide) (by decide)
  · exact from_str_alias_resolution.1 "Varying Character" "varying character" .Text
      ["text", "char", "varchar", "varying character", "nchar",
       "native character", "nvarchar", "clob", "timestamp"] (by decide) (by decide) (by decide)
  · exact from_str_alias_resolution.2 "geometry" (by decide)

/-! ## Claim C8 -/

/-- Claim C8: `format_bytes` selects units by repeated division by 1024 with
a cutoff below 1000 and two decimal places — 512 gives "512.00 B", 999.99
gives "999.99 B", 1000 gives "0.98 KB", 1024·1000 gives "0.98 MB", and every
value at or above the 1024⁴·1000 scale falls through to a "TB"-suffixed
result regardless of magnitude. -/
theorem format_bytes_units (q : ℚ) (h : 1000 * 1024 ^ 4 ≤ q) :
    format_bytes 512 = "512.00 B" ∧
    format_bytes (99999 / 100) = "999.99 B" ∧
    format_bytes 1000 = "0.98 KB" ∧
    format_bytes (1024 * 1000) = "0.98 MB" ∧
    ∃ s, format_bytes q = s ++ " TB" := by
  have p4 : ¬ (q < 1000) := by
    push_neg; norm_num at h ⊢; linarith
  have p3 : ¬ (q / 1024 < 1000) := by
    rw [not_lt, le_div_iff (show (0:ℚ) < 1024 by norm_num)]
    norm_num at h ⊢; linarith
  have p2 : ¬ (q / 1024 / 1024 < 1000) := by
    rw [not_lt, div_div, le_div_iff (show (0:ℚ) < 1024 * 1024 by norm_num)]
    norm_num at h ⊢; linarith
  have p1 : ¬ (q / 1024 / 1024 / 1024 < 1000) := by
    rw [not_lt, div_div, div_div,
        le_div_iff (show (0:ℚ) < 1024 * (1024 * 1024) by norm_num)]
    norm_num at h ⊢; linarith
  refine ⟨?_, ?_, ?_, ?_, decimal2 (q / 1024 / 1024 / 1024 / 1024), ?_⟩
  · norm_num [format_bytes, format_bytesAux, decimal2, roundHalfEven, Int.fract]; decide
  · norm_num [format_bytes, format_bytesAux, decimal2, roundHalfEven, Int.fract]; decide
  · norm_num [format_bytes, format_bytesAux, decimal2, roundHalfEven, Int.fract]; decide
  · norm_num [format_bytes, format_bytesAux, decimal2, roundHalfEven, Int.fract]; decide
  · simp only [format_bytes, format_bytesAux]
    rw [if_neg p4, if_neg p3, if_neg p2, if_neg p1]

/-- Witness for `format_bytes_units` at twice the TB threshold. -/
theorem format_bytes_units_witness :
    (1000 * 1024 ^ 4 : ℚ) ≤ 2000 * 1024 ^ 4 ∧
    ∃ s, format_bytes (2000 * 1024 ^ 4) = s ++ " TB" :=
  ⟨by norm_num, (format_bytes_units (2000 * 1024 ^ 4) (by norm_num)).2.2.2.2⟩

/-! ## Claim C9 -/

/-- Claim C9: starting below the table count, any sequence of
select-next/select-previous inputs keeps `selected_table` inside
[0, len-1] (with the length unchanged), saturating at both ends:
select-previous at index 0 leaves it at 0 and select-next at the last index
leaves it there. -/
theorem nav_saturates :
    (∀ (v : View) (ks : List Key), (∀ k ∈ ks, k = Key.left ∨ k = Key.right) →
      v.selected_table < v.tables.length →
      ∃ v', runKeys v ks = .cont v' ∧ v'.tables = v.tables ∧
        v'.selected_table < v.tables.length) ∧
    (∀ v : View, v.selected_table = 0 → applyKey v .left = .cont v) ∧
    (∀ v : View, v.selected_table + 1 = v.tables.length → applyKey v .right = .cont v) := by
  refine ⟨?_, ?_, ?_⟩
  · intro v ks
    induction ks generalizing v with
    | nil => intro _ hb; exact ⟨v, rfl, rfl, hb⟩
    | cons k ks ih =>
      intro hmem hb
      rcases hmem k (by simp) with hk | hk <;> subst hk
      · have hstep : applyKey v .left
            = .cont { v with selected_table :=
                if 0 < v.selected_table then v.selected_table - 1
                else v.selected_table } := rfl
        rw [runKeys, hstep]
        obtain ⟨v', hrun, hts, hsel⟩ := ih
          { v with selected_table :=
              if 0 < v.selected_table then v.selected_table - 1 else v.selected_table }
          (fun k hk => hmem k (by simp [hk])) (by dsimp only; split <;> omega)
        exact ⟨v', hrun, hts, hsel⟩
      · have hstep : applyKey v .right
            = .cont { v with selected_table :=
                if v.selected_table + 1 < v.tables.length then v.selected_table + 1
                else v.selected_table } := rfl
        rw [runKeys, hstep]
        obtain ⟨v', hrun, hts, hsel⟩ := ih
          { v with selected_table :=
              if v.selected_table + 1 < v.tables.length then v.selected_table + 1
              else v.selected_table }
          (fun k hk => hmem k (by simp [hk])) (by dsimp only; split <;> omega)
        exact ⟨v', hrun, hts, hsel⟩
  · intro v h; cases v with
    | mk p ts sel => simp_all [applyKey]
  · intro v h; cases v with
    | mk p ts sel => simp_all [applyKey]

/-- Witness for `nav_saturates`: two tables, keys next-next-previous. -/
theorem nav_saturates_witness :
    ∃ v', runKeys { page := .TablesChart, tables := [exT, exT], selected_table := 0 }
        [Key.right, Key.right, Key.left] = .cont v' ∧
      v'.tables = [exT, exT] ∧ v'.selected_table < 2 := by
  obtain ⟨v', h1, h2, h3⟩ := nav_saturates.1
    { page := .TablesChart, tables := [exT, exT], selected_table := 0 }
    [Key.right, Key.right, Key.left] (by decide) (by decide)
  exact ⟨v', h1, h2, h3⟩

/-! ## Claim C10 -/

/-- Claim C10: the extraction never returns a partial snapshot — when it
succeeds, the snapshot has one table per row of the first (page-accounting)
query and each table carries one column per introspected column; when any
per-table extraction fails (in particular when any single column's declared
type is unresolvable), the whole extraction propagates an error and no
snapshot value is produced. -/
theorem query_structure_all_or_error (db : Db) :
    (∀ ts, query_structure db = .ok ts →
      ∃ raw, db.tablesRaw = .ok raw ∧ ts.length = raw.length ∧
        ∀ t ∈ ts, ∃ info, db.tableInfo t.name = .ok info ∧
          t.columns.length = info.length) ∧
    (∀ raw n s, db.tablesRaw = .ok raw → (n, s) ∈ raw →
      (∃ e, tableExtract db n s = .error e) →
      ∃ e, query_structure db = .error e) ∧
    (∀ n s info cn ty, db.tableInfo n = .ok info → (cn, ty) ∈ info →
      (∃ e, Format.from_str ty = .error e) →
      ∃ e, tableExtract db n s = .error e) := by
  refine ⟨?_, ?_, ?_⟩
  · intro ts h
    rw [query_structure] at h
    cases htr : db.tablesRaw with
    | error e => rw [htr] at h; cases h
    | ok raw =>
      rw [htr] at h
      refine ⟨raw, rfl, mapE_ok_length _ _ _ h, ?_⟩
      intro t ht
      obtain ⟨⟨n, s⟩, _, hok⟩ := mapE_ok_mem _ _ _ h t ht
      obtain ⟨hname, _, info, hinfo, hlen⟩ := tableExtract_ok_complete db n s t hok
      exact ⟨info, by rw [hname]; exact hinfo, hlen⟩
  · intro raw n s hraw hmem hbad
    obtain ⟨e1, he1⟩ := mapE_error_of_mem
      (fun p : String × ℕ => tableExtract db p.1 p.2) raw (n, s) hmem hbad
    exact ⟨e1, by simp only [query_structure, hraw]; exact he1⟩
  · intro n s info cn ty hinfo hmem hbad
    cases hrc : db.rowCount n with
    | error e => exact ⟨e, by simp only [tableExtract, hrc]⟩
    | ok rows =>
      obtain ⟨e0, he0⟩ := hbad
      obtain ⟨e1, he1⟩ := mapE_error_of_mem
        (fun p : String × String =>
          match Format.from_str p.2 with
          | .error e => .error e
          | .ok f => .ok (p.1, f)) info (cn, ty) hmem ⟨e0, by simp only [he0]⟩
      exact ⟨e1, by simp only [tableExtract, hrc, hinfo, he1]⟩

/-- Witness for `query_structure_all_or_error`: the completeness part applied
to the concrete `exDb`, on which the extraction succeeds. -/
theorem query_structure_all_or_error_witness :
    ∃ raw, exDb.tablesRaw = .ok raw ∧ (exExtracted).length = raw.length ∧
      ∀ t ∈ exExtracted,
        ∃ info, exDb.tableInfo t.name = .ok info ∧
          t.columns.length = info.length :=
  (query_structure_all_or_error exDb).1 exExtracted (by decide)

end Vinolite
